import Mathlib

/-!
Shallow embedding of the color-flocking agent (`Block` in `flock.js`) and of the
p5.js vector operations it relies on (`normalize`, `limit`, `div`, `mult`,
`mag`, `magSq`), over exact real arithmetic.  Colors, velocities and
accelerations are 3-component real vectors; the boundary-reflection, steering
and integration code is translated statement by statement from the source.
-/

noncomputable section

/-- A 3-component real vector, the embedding of a p5.Vector used as an RGB
color, color velocity or color acceleration. -/
structure Vec3 where
  x : ℝ
  y : ℝ
  z : ℝ

namespace Vec3

/-- Componentwise addition (p5.Vector.add). -/
def add (a b : Vec3) : Vec3 := ⟨a.x + b.x, a.y + b.y, a.z + b.z⟩

instance : Zero Vec3 := ⟨⟨0, 0, 0⟩⟩

instance : Add Vec3 := ⟨Vec3.add⟩

instance : Neg Vec3 := ⟨fun a => ⟨-a.x, -a.y, -a.z⟩⟩

instance : Sub Vec3 := ⟨fun a b => ⟨a.x - b.x, a.y - b.y, a.z - b.z⟩⟩

instance : SMul ℝ Vec3 := ⟨fun c a => ⟨c * a.x, c * a.y, c * a.z⟩⟩

instance : AddCommMonoid Vec3 where
  add_assoc a b c := by
    show Vec3.add (Vec3.add a b) c = Vec3.add a (Vec3.add b c)
    simp only [Vec3.add, Vec3.mk.injEq]
    refine ⟨by ring, by ring, by ring⟩
  zero_add a := by
    obtain ⟨ax, ay, az⟩ := a
    show Vec3.add ⟨0, 0, 0⟩ ⟨ax, ay, az⟩ = ⟨ax, ay, az⟩
    simp only [Vec3.add, Vec3.mk.injEq]
    refine ⟨by ring, by ring, by ring⟩
  add_zero a := by
    obtain ⟨ax, ay, az⟩ := a
    show Vec3.add ⟨ax, ay, az⟩ ⟨0, 0, 0⟩ = ⟨ax, ay, az⟩
    simp only [Vec3.add, Vec3.mk.injEq]
    refine ⟨by ring, by ring, by ring⟩
  add_comm a b := by
    show Vec3.add a b = Vec3.add b a
    simp only [Vec3.add, Vec3.mk.injEq]
    refine ⟨by ring, by ring, by ring⟩
  nsmul := nsmulRec

/-- p5.Vector.magSq: the squared magnitude x*x + y*y + z*z. -/
def magSq (v : Vec3) : ℝ := v.x * v.x + v.y * v.y + v.z * v.z

/-- p5.Vector.mag: the magnitude, square root of `magSq`. -/
def mag (v : Vec3) : ℝ := Real.sqrt v.magSq

/-- p5.Vector.div by a scalar: divides each component by n, and is a guarded
no-op when n is 0. -/
def vdiv (v : Vec3) (n : ℝ) : Vec3 := if n = 0 then v else (1 / n) • v

/-- p5.Vector.normalize: scales the vector to length 1, and is a guarded
no-op on the zero vector (the len !== 0 check). -/
def normalize (v : Vec3) : Vec3 := if v.mag = 0 then v else (1 / v.mag) • v

/-- p5.Vector.limit(max): if the squared magnitude exceeds max*max, divide by
the magnitude and multiply by max; otherwise leave the vector unchanged. -/
def limit (v : Vec3) (m : ℝ) : Vec3 :=
  if m * m < v.magSq then m • (v.vdiv (Real.sqrt v.magSq)) else v

/-- Membership of a color vector in the valid RGB cube [0,255]^3. -/
def inCube (v : Vec3) : Prop :=
  (0 ≤ v.x ∧ v.x ≤ 255) ∧ (0 ≤ v.y ∧ v.y ≤ 255) ∧ (0 ≤ v.z ∧ v.z ≤ 255)

end Vec3

/-- The agent of `flock.js` (`function Block(x, y, s)`), restricted to the
color-dynamics state: `rgb`, `rgbVel`, `rgbAcc` and the two tuning constants
`maxspeed` (source default 1.5) and `maxforce` (source default 0.01).  The
screen position and size take no part in the dynamics and are omitted. -/
structure Block where
  rgb : Vec3
  rgbVel : Vec3
  rgbAcc : Vec3
  maxspeed : ℝ := 1.5
  maxforce : ℝ := 0.01

/-- The non-null entries of a peer array, in order: the loops in `separate`,
`align` and `cohesion` all guard with `blocks[i] !== null` and nothing else. -/
def peers (l : List (Option Block)) : List Block := l.filterMap id

namespace Block

/-- Block.seek: desired = normalize(target - rgb) * maxspeed;
steer = desired - rgbVel, limited to maxforce. -/
def seek (a : Block) (target : Vec3) : Vec3 :=
  ((a.maxspeed • (target - a.rgb).normalize) - a.rgbVel).limit a.maxforce

/-- Block.separate: sum the normalized directions from each non-null peer's
color to this color, divide by the count, normalize, scale to maxspeed,
subtract the velocity and limit to maxforce; the initial zero steer is
returned when the count is 0. -/
def separate (a : Block) (blocks : List (Option Block)) : Vec3 :=
  let ps := peers blocks
  let sum := (ps.map (fun p => (a.rgb - p.rgb).normalize)).sum
  let count := ps.length
  if 0 < count then
    ((a.maxspeed • ((sum.vdiv count).normalize)) - a.rgbVel).limit a.maxforce
  else
    0

/-- Block.align: sum the non-null peers' velocities, divide by the count,
normalize, scale to maxspeed, subtract the velocity and limit to maxforce;
the zero vector is returned when the count is 0. -/
def align (a : Block) (blocks : List (Option Block)) : Vec3 :=
  let sum := ((peers blocks).map (fun p => p.rgbVel)).sum
  let count := (peers blocks).length
  if 0 < count then
    ((a.maxspeed • ((sum.vdiv count).normalize)) - a.rgbVel).limit a.maxforce
  else
    0

/-- Block.cohesion: sum the non-null peers' colors, divide by the count and
seek the average; the zero vector is returned when the count is 0. -/
def cohesion (a : Block) (blocks : List (Option Block)) : Vec3 :=
  let sum := ((peers blocks).map (fun p => p.rgb)).sum
  let count := (peers blocks).length
  if 0 < count then
    a.seek (sum.vdiv count)
  else
    0

/-- Block.applyForce: adds the force into the acceleration accumulator. -/
def applyForce (a : Block) (force : Vec3) : Block :=
  { a with rgbAcc := a.rgbAcc + force }

/-- The three slider gains read inside Block.flock (`sepSlider.value()` etc.);
the slider objects live outside the core, so the values are parameters. -/
structure Gains where
  sep : ℝ
  ali : ℝ
  coh : ℝ

/-- Block.flock: compute separate/align/cohesion, scale each by its slider
gain, and apply the three results as forces. -/
def flock (a : Block) (blocks : List (Option Block)) (g : Gains) : Block :=
  let sep := g.sep • a.separate blocks
  let ali := g.ali • a.align blocks
  let coh := g.coh • a.cohesion blocks
  ((a.applyForce sep).applyForce ali).applyForce coh

/-- Block.edges: for each channel in turn, clamp above 255 to 255 or below 0
to 0, multiplying that channel's velocity by -1 in either case. -/
def edges (a : Block) : Block :=
  let a1 :=
    if 255 < a.rgb.x then
      { a with rgb := { a.rgb with x := 255 },
               rgbVel := { a.rgbVel with x := a.rgbVel.x * (-1) } }
    else if a.rgb.x < 0 then
      { a with rgb := { a.rgb with x := 0 },
               rgbVel := { a.rgbVel with x := a.rgbVel.x * (-1) } }
    else a
  let a2 :=
    if 255 < a1.rgb.y then
      { a1 with rgb := { a1.rgb with y := 255 },
                rgbVel := { a1.rgbVel with y := a1.rgbVel.y * (-1) } }
    else if a1.rgb.y < 0 then
      { a1 with rgb := { a1.rgb with y := 0 },
                rgbVel := { a1.rgbVel with y := a1.rgbVel.y * (-1) } }
    else a1
  if 255 < a2.rgb.z then
    { a2 with rgb := { a2.rgb with z := 255 },
              rgbVel := { a2.rgbVel with z := a2.rgbVel.z * (-1) } }
  else if a2.rgb.z < 0 then
    { a2 with rgb := { a2.rgb with z := 0 },
              rgbVel := { a2.rgbVel with z := a2.rgbVel.z * (-1) } }
  else a2

/-- Block.update: velocity += acceleration; limit velocity to maxspeed;
color += velocity; run edges; reset the acceleration by multiplying it by 0. -/
def update (a : Block) : Block :=
  let a1 := { a with rgbVel := (a.rgbVel + a.rgbAcc).limit a.maxspeed }
  let a2 := { a1 with rgb := a1.rgb + a1.rgbVel }
  let a3 := a2.edges
  { a3 with rgbAcc := (0 : ℝ) • a3.rgbAcc }

/-- The Block constructor's dynamic fields: rgb is set to the floors of three
uniform samples from [0, 256), the velocity and acceleration to zero, and the
two tuning constants to their fixed values. -/
def init (r g b : ℝ) : Block :=
  { rgb := ⟨(⌊r⌋ : ℝ), (⌊g⌋ : ℝ), (⌊b⌋ : ℝ)⟩
    rgbVel := 0
    rgbAcc := 0
    maxspeed := 1.5
    maxforce := 0.01 }

/-- Block.randomizeColor: rgb.set with the floors of three fresh uniform
samples from [0, 256); the other fields are untouched. -/
def randomizeColor (a : Block) (r g b : ℝ) : Block :=
  { a with rgb := ⟨(⌊r⌋ : ℝ), (⌊g⌋ : ℝ), (⌊b⌋ : ℝ)⟩ }

end Block

/-- Modelled from the spec: the per-agent body of `Flock.step` (the sketch's
frame driver is not part of `flock.js`) — call `flock` against the
start-of-frame collection, then `update`.  The Block methods it composes are
the ones embedded above from the source. -/
def stepAgent (g : Block.Gains) (blocks : List (Option Block)) (a : Block) :
    Block :=
  (a.flock blocks g).update

/-- Modelled from the spec: one full `Flock.step` over the collection — every
agent's forces are computed from the same start-of-frame snapshot `blocks`,
then every agent integrates; null slots stay null. -/
def flockStep (g : Block.Gains) (blocks : List (Option Block)) :
    List (Option Block) :=
  blocks.map (Option.map (stepAgent g blocks))

/-- A real number that is an integer lying in the displayable range [0, 255]. -/
def intInRange (c : ℝ) : Prop := (∃ k : ℤ, c = (k : ℝ)) ∧ 0 ≤ c ∧ c ≤ 255

/-- A concrete in-range agent at rest, used to instantiate theorems. -/
def blockW : Block :=
  { rgb := ⟨10, 20, 30⟩, rgbVel := ⟨0, 0, 0⟩, rgbAcc := ⟨0, 0, 0⟩
    maxspeed := 1.5, maxforce := 0.01 }

/-- A concrete agent with nonzero velocity, used to instantiate theorems. -/
def blockV : Block :=
  { rgb := ⟨100, 50, 25⟩, rgbVel := ⟨1, 0, 0⟩, rgbAcc := ⟨0, 0, 0⟩
    maxspeed := 1.5, maxforce := 0.01 }

/-- A second concrete agent, used to instantiate permutation theorems. -/
def blockU : Block :=
  { rgb := ⟨200, 150, 75⟩, rgbVel := ⟨0, 3, 4⟩, rgbAcc := ⟨0, 0, 0⟩
    maxspeed := 1.5, maxforce := 0.01 }

/-- The source's default slider gains: separation 1.2, alignment 1,
cohesion 2. -/
def gainsW : Block.Gains := ⟨1.2, 1, 2⟩

namespace Vec3

theorem ext3 {v w : Vec3} (hx : v.x = w.x) (hy : v.y = w.y) (hz : v.z = w.z) :
    v = w := by
  cases v; cases w; simp_all

theorem zero_def : (0 : Vec3) = ⟨0, 0, 0⟩ := rfl

theorem add_def (a b : Vec3) : a + b = ⟨a.x + b.x, a.y + b.y, a.z + b.z⟩ := rfl

theorem neg_def (a : Vec3) : -a = ⟨-a.x, -a.y, -a.z⟩ := rfl

theorem sub_def (a b : Vec3) : a - b = ⟨a.x - b.x, a.y - b.y, a.z - b.z⟩ := rfl

theorem smul_def (c : ℝ) (a : Vec3) : c • a = ⟨c * a.x, c * a.y, c * a.z⟩ := rfl

theorem smul_zero_vec (c : ℝ) : c • (0 : Vec3) = 0 := by
  simp only [smul_def, zero_def, mul_zero]

theorem zero_smul_vec (v : Vec3) : (0 : ℝ) • v = 0 := by
  simp only [smul_def, zero_def, zero_mul]

theorem one_smul_vec (v : Vec3) : (1 : ℝ) • v = v := by
  simp only [smul_def, one_mul]

theorem magSq_nonneg (v : Vec3) : 0 ≤ v.magSq := by
  have hx := mul_self_nonneg v.x
  have hy := mul_self_nonneg v.y
  have hz := mul_self_nonneg v.z
  simp only [magSq]; linarith

theorem magSq_zero : (0 : Vec3).magSq = 0 := by
  simp [magSq, zero_def]

theorem mag_zero : (0 : Vec3).mag = 0 := by
  simp [mag, magSq_zero]

theorem mag_nonneg (v : Vec3) : 0 ≤ v.mag := Real.sqrt_nonneg _

theorem normalize_zero : (0 : Vec3).normalize = 0 := by
  simp [normalize, mag_zero]

theorem limit_zero (m : ℝ) : (0 : Vec3).limit m = 0 := by
  have h : ¬ m * m < (0 : Vec3).magSq := by
    simp only [magSq_zero, not_lt]; exact mul_self_nonneg m
  simp [limit, h]

theorem magSq_smul (c : ℝ) (v : Vec3) : (c • v).magSq = c ^ 2 * v.magSq := by
  simp only [smul_def, magSq]; ring

theorem mag_smul (c : ℝ) (v : Vec3) : (c • v).mag = |c| * v.mag := by
  simp only [mag, magSq_smul]
  rw [Real.sqrt_mul (sq_nonneg c), Real.sqrt_sq_eq_abs]

theorem mag_limit_le {m : ℝ} (hm : 0 ≤ m) (v : Vec3) : (v.limit m).mag ≤ m := by
  by_cases h : m * m < v.magSq
  · have hpos : 0 < v.magSq := lt_of_le_of_lt (mul_self_nonneg m) h
    have hs : 0 < Real.sqrt v.magSq := Real.sqrt_pos.mpr hpos
    have hdiv : v.vdiv (Real.sqrt v.magSq) = (1 / Real.sqrt v.magSq) • v := by
      simp [vdiv, ne_of_gt hs]
    have hmagv : v.mag = Real.sqrt v.magSq := rfl
    rw [limit, if_pos h, hdiv, mag_smul, mag_smul, hmagv]
    rw [abs_of_nonneg hm, abs_of_nonneg (by positivity : (0:ℝ) ≤ 1 / Real.sqrt v.magSq)]
    rw [one_div, inv_mul_cancel₀ (ne_of_gt hs), mul_one]
  · rw [limit, if_neg h]
    calc v.mag = Real.sqrt v.magSq := rfl
    _ ≤ Real.sqrt (m * m) := Real.sqrt_le_sqrt (le_of_not_lt h)
    _ = m := Real.sqrt_mul_self hm

theorem sub_self_vec (v : Vec3) : v - v = 0 := by
  simp [sub_def, zero_def]

theorem zero_sub_vec (v : Vec3) : (0 : Vec3) - v = -v := by
  simp [sub_def, neg_def, zero_def]

theorem vdiv_zero_vec (n : ℝ) : (0 : Vec3).vdiv n = 0 := by
  unfold vdiv
  split_ifs <;> simp [smul_zero_vec]

theorem vdiv_one (v : Vec3) : v.vdiv 1 = v := by
  rw [vdiv, if_neg one_ne_zero]
  rw [show (1 / 1 : ℝ) = 1 by norm_num]
  exact one_smul_vec v

theorem magSq_neg_unit : ((⟨-1, 0, 0⟩ : Vec3)).magSq = 1 := by
  norm_num [magSq]

theorem limit_neg_unit :
    ((⟨-1, 0, 0⟩ : Vec3)).limit (0.01 : ℝ) = ⟨-0.01, 0, 0⟩ := by
  rw [limit, if_pos (by rw [magSq_neg_unit]; norm_num)]
  rw [magSq_neg_unit, Real.sqrt_one, vdiv_one, smul_def]
  norm_num

theorem neg_unit_scaled_ne_zero : ((⟨-0.01, 0, 0⟩ : Vec3)) ≠ 0 := by
  rw [zero_def]
  intro h
  have := congrArg Vec3.x h
  norm_num at this

end Vec3

namespace Block

theorem ext5 {a b : Block} (h1 : a.rgb = b.rgb) (h2 : a.rgbVel = b.rgbVel)
    (h3 : a.rgbAcc = b.rgbAcc) (h4 : a.maxspeed = b.maxspeed)
    (h5 : a.maxforce = b.maxforce) : a = b := by
  cases a; cases b; simp_all

theorem edges_rgbAcc (a : Block) : a.edges.rgbAcc = a.rgbAcc := by
  simp only [edges]; split_ifs <;> rfl

theorem edges_maxspeed (a : Block) : a.edges.maxspeed = a.maxspeed := by
  simp only [edges]; split_ifs <;> rfl

theorem edges_maxforce (a : Block) : a.edges.maxforce = a.maxforce := by
  simp only [edges]; split_ifs <;> rfl

theorem edges_rgb_x (a : Block) :
    a.edges.rgb.x =
      if 255 < a.rgb.x then 255 else if a.rgb.x < 0 then 0 else a.rgb.x := by
  simp only [edges]; split_ifs <;> simp_all

theorem edges_rgb_y (a : Block) :
    a.edges.rgb.y =
      if 255 < a.rgb.y then 255 else if a.rgb.y < 0 then 0 else a.rgb.y := by
  simp only [edges]; split_ifs <;> simp_all

theorem edges_rgb_z (a : Block) :
    a.edges.rgb.z =
      if 255 < a.rgb.z then 255 else if a.rgb.z < 0 then 0 else a.rgb.z := by
  simp only [edges]; split_ifs <;> simp_all

theorem edges_rgbVel_x (a : Block) :
    a.edges.rgbVel.x =
      if 255 < a.rgb.x ∨ a.rgb.x < 0 then a.rgbVel.x * (-1) else a.rgbVel.x := by
  simp only [edges]; split_ifs <;> simp_all <;>
    (rcases ‹_ ∨ _› with h | h <;> linarith)

theorem edges_rgbVel_y (a : Block) :
    a.edges.rgbVel.y =
      if 255 < a.rgb.y ∨ a.rgb.y < 0 then a.rgbVel.y * (-1) else a.rgbVel.y := by
  simp only [edges]; split_ifs <;> simp_all <;>
    (rcases ‹_ ∨ _› with h | h <;> linarith)

theorem edges_rgbVel_z (a : Block) :
    a.edges.rgbVel.z =
      if 255 < a.rgb.z ∨ a.rgb.z < 0 then a.rgbVel.z * (-1) else a.rgbVel.z := by
  simp only [edges]; split_ifs <;> simp_all <;>
    (rcases ‹_ ∨ _› with h | h <;> linarith)

theorem edges_magSq_vel (a : Block) :
    a.edges.rgbVel.magSq = a.rgbVel.magSq := by
  simp only [Vec3.magSq, edges_rgbVel_x, edges_rgbVel_y, edges_rgbVel_z]
  split_ifs <;> ring

theorem edges_rgb_inCube (a : Block) : a.edges.rgb.inCube := by
  simp only [Vec3.inCube, edges_rgb_x, edges_rgb_y, edges_rgb_z]
  split_ifs <;>
    (refine ⟨⟨?_, ?_⟩, ⟨?_, ?_⟩, ?_, ?_⟩ <;>
      (try simp only [not_lt] at *) <;> linarith)

theorem edges_eq_self {a : Block} (h : a.rgb.inCube) : a.edges = a := by
  obtain ⟨⟨hx0, hx1⟩, ⟨hy0, hy1⟩, hz0, hz1⟩ := h
  apply ext5
  · refine Vec3.ext3 ?_ ?_ ?_
    · rw [edges_rgb_x, if_neg (by linarith), if_neg (by linarith)]
    · rw [edges_rgb_y, if_neg (by linarith), if_neg (by linarith)]
    · rw [edges_rgb_z, if_neg (by linarith), if_neg (by linarith)]
  · refine Vec3.ext3 ?_ ?_ ?_
    · rw [edges_rgbVel_x, if_neg (by rintro (h | h) <;> linarith)]
    · rw [edges_rgbVel_y, if_neg (by rintro (h | h) <;> linarith)]
    · rw [edges_rgbVel_z, if_neg (by rintro (h | h) <;> linarith)]
  · exact edges_rgbAcc a
  · exact edges_maxspeed a
  · exact edges_maxforce a

theorem edges_rgb_congr {a b : Block} (h1 : a.rgb = b.rgb)
    (h2 : a.rgbVel = b.rgbVel) :
    a.edges.rgb = b.edges.rgb ∧ a.edges.rgbVel = b.edges.rgbVel := by
  constructor
  · refine Vec3.ext3 ?_ ?_ ?_ <;>
      simp only [edges_rgb_x, edges_rgb_y, edges_rgb_z, h1]
  · refine Vec3.ext3 ?_ ?_ ?_ <;>
      simp only [edges_rgbVel_x, edges_rgbVel_y, edges_rgbVel_z, h1, h2]

theorem update_rgbAcc (a : Block) : a.update.rgbAcc = 0 := by
  simp only [update]
  exact Vec3.zero_smul_vec _

theorem update_rgbVel (a : Block) :
    a.update.rgbVel =
      (Block.edges
        { a with rgbVel := (a.rgbVel + a.rgbAcc).limit a.maxspeed,
                 rgb := a.rgb + (a.rgbVel + a.rgbAcc).limit a.maxspeed }).rgbVel :=
  rfl

theorem update_rgb (a : Block) :
    a.update.rgb =
      (Block.edges
        { a with rgbVel := (a.rgbVel + a.rgbAcc).limit a.maxspeed,
                 rgb := a.rgb + (a.rgbVel + a.rgbAcc).limit a.maxspeed }).rgb :=
  rfl

theorem update_maxspeed (a : Block) : a.update.maxspeed = a.maxspeed := by
  simp only [update]
  rw [edges_maxspeed]

theorem update_maxforce (a : Block) : a.update.maxforce = a.maxforce := by
  simp only [update]
  rw [edges_maxforce]

theorem update_rgb_inCube (a : Block) : a.update.rgb.inCube := by
  rw [update_rgb]
  exact edges_rgb_inCube _

end Block

theorem peers_map (f : Block → Block) (l : List (Option Block)) :
    peers (l.map (Option.map f)) = (peers l).map f := by
  induction l with
  | nil => rfl
  | cons hd tl ih => cases hd <;> simp_all [peers]

theorem peers_perm {l l' : List (Option Block)} (h : l.Perm l') :
    (peers l).Perm (peers l') :=
  h.filterMap id

/-- C7: `edges` acts on each color channel independently: a channel above 255
is clamped to 255 with its velocity component negated, a channel below 0 is
clamped to 0 with its velocity component negated, and an in-range channel and
its velocity component are left unchanged; each output channel is a function
of that channel's color and velocity alone, with no coupling between
channels. -/
theorem C7_edges_channelwise (a : Block) :
    (a.edges.rgb.x =
        if 255 < a.rgb.x then 255 else if a.rgb.x < 0 then 0 else a.rgb.x) ∧
    (a.edges.rgbVel.x =
        if 255 < a.rgb.x ∨ a.rgb.x < 0 then -a.rgbVel.x else a.rgbVel.x) ∧
    (a.edges.rgb.y =
        if 255 < a.rgb.y then 255 else if a.rgb.y < 0 then 0 else a.rgb.y) ∧
    (a.edges.rgbVel.y =
        if 255 < a.rgb.y ∨ a.rgb.y < 0 then -a.rgbVel.y else a.rgbVel.y) ∧
    (a.edges.rgb.z =
        if 255 < a.rgb.z then 255 else if a.rgb.z < 0 then 0 else a.rgb.z) ∧
    (a.edges.rgbVel.z =
        if 255 < a.rgb.z ∨ a.rgb.z < 0 then -a.rgbVel.z else a.rgbVel.z) := by
  refine ⟨Block.edges_rgb_x a, ?_, Block.edges_rgb_y a, ?_,
    Block.edges_rgb_z a, ?_⟩
  · rw [Block.edges_rgbVel_x]; split_ifs <;> ring
  · rw [Block.edges_rgbVel_y]; split_ifs <;> ring
  · rw [Block.edges_rgbVel_z]; split_ifs <;> ring

/-- C4: immediately after `update()` returns — that is, after the boundary
reflection in `edges` has run — the magnitude of the color velocity is at
most `maxspeed` (the source constant is 1.5, nonnegative). -/
theorem C4_speed_invariant (a : Block) (h : 0 ≤ a.maxspeed) :
    a.update.rgbVel.mag ≤ a.maxspeed := by
  rw [Block.update_rgbVel]
  simp only [Vec3.mag, Block.edges_magSq_vel]
  exact Vec3.mag_limit_le h _

/-- Witness for C4 at the concrete resting agent. -/
theorem C4_speed_invariant_witness :
    (0 : ℝ) ≤ blockW.maxspeed ∧ blockW.update.rgbVel.mag ≤ blockW.maxspeed :=
  ⟨by norm_num [blockW], C4_speed_invariant blockW (by norm_num [blockW])⟩

/-- C5: each of `separate`, `align`, `cohesion` and `seek` returns a vector of
magnitude at most `maxforce` (nonnegative in the source, 0.01), before the
gain scaling in `flock`. -/
theorem C5_force_invariant (a : Block) (blocks : List (Option Block))
    (target : Vec3) (h : 0 ≤ a.maxforce) :
    (a.separate blocks).mag ≤ a.maxforce ∧
    (a.align blocks).mag ≤ a.maxforce ∧
    (a.cohesion blocks).mag ≤ a.maxforce ∧
    (a.seek target).mag ≤ a.maxforce := by
  refine ⟨?_, ?_, ?_, ?_⟩
  · simp only [Block.separate]
    split_ifs
    · exact Vec3.mag_limit_le h _
    · rw [Vec3.mag_zero]; exact h
  · simp only [Block.align]
    split_ifs
    · exact Vec3.mag_limit_le h _
    · rw [Vec3.mag_zero]; exact h
  · simp only [Block.cohesion]
    split_ifs
    · simp only [Block.seek]; exact Vec3.mag_limit_le h _
    · rw [Vec3.mag_zero]; exact h
  · simp only [Block.seek]; exact Vec3.mag_limit_le h _

/-- Witness for C5 at the concrete resting agent, an empty peer list and the
zero target. -/
theorem C5_force_invariant_witness :
    (0 : ℝ) ≤ blockW.maxforce ∧
    ((blockW.separate []).mag ≤ blockW.maxforce ∧
     (blockW.align []).mag ≤ blockW.maxforce ∧
     (blockW.cohesion []).mag ≤ blockW.maxforce ∧
     (blockW.seek 0).mag ≤ blockW.maxforce) :=
  ⟨by norm_num [blockW],
   C5_force_invariant blockW [] 0 (by norm_num [blockW])⟩

/-- C9: immediately after `update()` the acceleration accumulator is the zero
vector, and the acceleration is consumed by the velocity integration before
being cleared: updating an agent is the same as updating the agent whose
velocity has already absorbed the acceleration and whose accumulator is
already cleared. -/
theorem C9_acceleration_reset (a : Block) :
    a.update.rgbAcc = 0 ∧
    a.update =
      Block.update { a with rgbVel := a.rgbVel + a.rgbAcc, rgbAcc := 0 } := by
  refine ⟨Block.update_rgbAcc a, ?_⟩
  apply Block.ext5
  · rw [Block.update_rgb, Block.update_rgb]
    exact (Block.edges_rgb_congr (by simp) (by simp)).1
  · rw [Block.update_rgbVel, Block.update_rgbVel]
    exact (Block.edges_rgb_congr (by simp) (by simp)).2
  · rw [Block.update_rgbAcc, Block.update_rgbAcc]
  · rw [Block.update_maxspeed, Block.update_maxspeed]
  · rw [Block.update_maxforce, Block.update_maxforce]

/-- C1: if every agent's color starts inside [0,255]^3, then after any number
of full step cycles (flock then update, whose `edges` pass ends each frame)
every agent's color is still inside [0,255]^3. -/
theorem C1_boundary_invariant (g : Block.Gains) (l : List (Option Block))
    (n : ℕ) (h : ∀ b ∈ peers l, b.rgb.inCube) :
    ∀ b ∈ peers ((flockStep g)^[n] l), b.rgb.inCube := by
  induction n generalizing l with
  | zero => simpa using h
  | succ n ih =>
    rw [Function.iterate_succ_apply]
    apply ih
    intro b hb
    simp only [flockStep, peers_map, List.mem_map] at hb
    obtain ⟨b0, hb0, rfl⟩ := hb
    exact Block.update_rgb_inCube _

/-- Witness for C1: two steps of the singleton flock of the concrete resting
agent. -/
theorem C1_boundary_invariant_witness :
    (∀ b ∈ peers [some blockW], b.rgb.inCube) ∧
    ∀ b ∈ peers ((flockStep gainsW)^[2] [some blockW]), b.rgb.inCube := by
  have h : ∀ b ∈ peers [some blockW], b.rgb.inCube := by
    intro b hb
    simp only [peers, List.filterMap_cons, id, List.filterMap_nil] at hb
    rw [List.mem_singleton] at hb
    subst hb
    refine ⟨⟨?_, ?_⟩, ⟨?_, ?_⟩, ?_, ?_⟩ <;> norm_num [blockW]
  exact ⟨h, C1_boundary_invariant gainsW [some blockW] 2 h⟩

theorem intInRange_floor {r : ℝ} (h0 : 0 ≤ r) (h1 : r < 256) :
    intInRange ((⌊r⌋ : ℤ) : ℝ) := by
  refine ⟨⟨⌊r⌋, rfl⟩, ?_, ?_⟩
  · exact_mod_cast Int.floor_nonneg.mpr h0
  · have hlt : ⌊r⌋ < 256 := by
      apply Int.floor_lt.mpr
      exact_mod_cast h1
    have h2 : ⌊r⌋ ≤ 255 := by omega
    exact_mod_cast h2

/-- C10: the constructor sets the velocity and the acceleration to zero and
every color component to the floor of a uniform sample from [0, 256), hence
an integer in [0, 255]; `randomizeColor` re-establishes the same property for
the color of any agent. -/
theorem C10_initial_state (a : Block) (r g b : ℝ)
    (hr0 : 0 ≤ r) (hr1 : r < 256) (hg0 : 0 ≤ g) (hg1 : g < 256)
    (hb0 : 0 ≤ b) (hb1 : b < 256) :
    (Block.init r g b).rgbVel = 0 ∧ (Block.init r g b).rgbAcc = 0 ∧
    intInRange (Block.init r g b).rgb.x ∧
    intInRange (Block.init r g b).rgb.y ∧
    intInRange (Block.init r g b).rgb.z ∧
    intInRange (a.randomizeColor r g b).rgb.x ∧
    intInRange (a.randomizeColor r g b).rgb.y ∧
    intInRange (a.randomizeColor r g b).rgb.z :=
  ⟨rfl, rfl, intInRange_floor hr0 hr1, intInRange_floor hg0 hg1,
   intInRange_floor hb0 hb1, intInRange_floor hr0 hr1,
   intInRange_floor hg0 hg1, intInRange_floor hb0 hb1⟩

/-- Witness for C10 at concrete uniform samples. -/
theorem C10_initial_state_witness :
    (0 : ℝ) ≤ 0.5 ∧ (0.5 : ℝ) < 256 ∧
    intInRange (Block.init 0.5 100.25 255.75).rgb.x :=
  ⟨by norm_num, by norm_num,
   (C10_initial_state blockW 0.5 100.25 255.75 (by norm_num) (by norm_num)
     (by norm_num) (by norm_num) (by norm_num) (by norm_num)).2.2.1⟩

theorem steering_perm {l l' : List (Option Block)} (h : l.Perm l')
    (a : Block) :
    a.separate l = a.separate l' ∧ a.align l = a.align l' ∧
    a.cohesion l = a.cohesion l' := by
  have hp : (peers l).Perm (peers l') := peers_perm h
  have hlen : (peers l).length = (peers l').length := hp.length_eq
  have hsum1 :
      ((peers l).map (fun p => (a.rgb - p.rgb).normalize)).sum =
        ((peers l').map (fun p => (a.rgb - p.rgb).normalize)).sum :=
    (hp.map _).sum_eq
  have hsum2 :
      ((peers l).map (fun p => p.rgbVel)).sum =
        ((peers l').map (fun p => p.rgbVel)).sum :=
    (hp.map _).sum_eq
  have hsum3 :
      ((peers l).map (fun p => p.rgb)).sum =
        ((peers l').map (fun p => p.rgb)).sum :=
    (hp.map _).sum_eq
  refine ⟨?_, ?_, ?_⟩
  · simp only [Block.separate, hlen, hsum1]
  · simp only [Block.align, hlen, hsum2]
  · simp only [Block.cohesion, hlen, hsum3]

/-- C6: one two-phase step is independent of the iteration order of the
collection — under any permutation of the peer list, every agent's post-step
state is the same, and the stepped collections are permutations of each
other by the same reordering. -/
theorem C6_order_independence (g : Block.Gains) (l l' : List (Option Block))
    (h : l.Perm l') :
    (∀ b : Block, stepAgent g l b = stepAgent g l' b) ∧
    (flockStep g l).Perm (flockStep g l') := by
  have hstep : ∀ b : Block, stepAgent g l b = stepAgent g l' b := by
    intro b
    obtain ⟨h1, h2, h3⟩ := steering_perm h b
    simp only [stepAgent, Block.flock, h1, h2, h3]
  refine ⟨hstep, ?_⟩
  have hmap : Option.map (stepAgent g l) = Option.map (stepAgent g l') := by
    funext o
    cases o with
    | none => rfl
    | some b => simp [hstep b]
  show (l.map (Option.map (stepAgent g l))).Perm
    (l'.map (Option.map (stepAgent g l')))
  rw [hmap]
  exact h.map _

/-- Witness for C6 at a concrete two-agent collection and its swap. -/
theorem C6_order_independence_witness :
    ([some blockV, some blockU] : List (Option Block)).Perm
      [some blockU, some blockV] ∧
    stepAgent gainsW [some blockV, some blockU] blockV =
      stepAgent gainsW [some blockU, some blockV] blockV ∧
    (flockStep gainsW [some blockV, some blockU]).Perm
      (flockStep gainsW [some blockU, some blockV]) := by
  have hperm : ([some blockV, some blockU] : List (Option Block)).Perm
      [some blockU, some blockV] := List.Perm.swap _ _ _
  exact ⟨hperm,
    (C6_order_independence gainsW _ _ hperm).1 blockV,
    (C6_order_independence gainsW _ _ hperm).2⟩

theorem Block.seek_self (a : Block) :
    a.seek a.rgb = (-a.rgbVel).limit a.maxforce := by
  simp only [Block.seek, Vec3.sub_self_vec, Vec3.normalize_zero,
    Vec3.smul_zero_vec, Vec3.zero_sub_vec]

theorem neg_zero_vec : -(0 : Vec3) = 0 := by
  simp [Vec3.neg_def, Vec3.zero_def]

theorem blockV_neg_vel : -blockV.rgbVel = (⟨-1, 0, 0⟩ : Vec3) := by
  show -(⟨1, 0, 0⟩ : Vec3) = ⟨-1, 0, 0⟩
  rw [Vec3.neg_def]
  simp

/-- C3 counterexample: for the concrete agent with velocity (1,0,0), seeking
a target exactly equal to its own color does not return the zero vector (it
returns the clamp of the negated velocity). -/
theorem C3_counterexample : blockV.seek blockV.rgb ≠ 0 := by
  rw [Block.seek_self, blockV_neg_vel]
  rw [show blockV.maxforce = (0.01 : ℝ) from rfl, Vec3.limit_neg_unit]
  exact Vec3.neg_unit_scaled_ne_zero

/-- C3 amended: seeking a target exactly equal to the current color never
produces a NaN — normalize's zero guard makes the desired vector zero — and
the result is the negated current velocity clamped to maxforce, which is the
zero vector exactly when the velocity is zero. -/
theorem C3_seek_degenerate (a : Block) :
    a.seek a.rgb = (-a.rgbVel).limit a.maxforce ∧
    Block.seek { a with rgbVel := (0 : Vec3) } a.rgb = 0 := by
  refine ⟨Block.seek_self a, ?_⟩
  have h : Block.seek { a with rgbVel := (0 : Vec3) } a.rgb
      = (-(0 : Vec3)).limit a.maxforce :=
    Block.seek_self { a with rgbVel := (0 : Vec3) }
  rw [h, neg_zero_vec, Vec3.limit_zero]

/-- C2 counterexample: the steering functions do not exclude the agent itself
from the peer aggregation — for the concrete agent with velocity (1,0,0),
`separate` over the singleton list containing only the agent itself differs
from `separate` over the list with the agent removed. -/
theorem C2_counterexample :
    blockV.separate [some blockV] ≠ blockV.separate [] := by
  have hempty : blockV.separate [] = 0 := by
    simp [Block.separate, peers]
  have hfull : blockV.separate [some blockV] = (⟨-0.01, 0, 0⟩ : Vec3) := by
    have hp : peers [some blockV] = [blockV] := by simp [peers]
    simp only [Block.separate, hp, List.map_cons, List.map_nil,
      Vec3.sub_self_vec, Vec3.normalize_zero, List.sum_cons, List.sum_nil,
      add_zero, List.length_cons, List.length_nil]
    rw [if_pos (by norm_num)]
    rw [Vec3.vdiv_zero_vec, Vec3.normalize_zero, Vec3.smul_zero_vec,
      Vec3.zero_sub_vec, blockV_neg_vel]
    exact Vec3.limit_neg_unit
  rw [hempty, hfull]
  exact Vec3.neg_unit_scaled_ne_zero

/-- C2 amended: `separate`, `align` and `cohesion` aggregate over every
non-null slot of the peer list — including the agent itself when present —
and only null slots are skipped: removing a null slot anywhere leaves all
three results unchanged. -/
theorem C2_null_slots_skipped (a : Block) (l1 l2 : List (Option Block)) :
    a.separate (l1 ++ none :: l2) = a.separate (l1 ++ l2) ∧
    a.align (l1 ++ none :: l2) = a.align (l1 ++ l2) ∧
    a.cohesion (l1 ++ none :: l2) = a.cohesion (l1 ++ l2) := by
  have hp : peers (l1 ++ none :: l2) = peers (l1 ++ l2) := by
    simp [peers]
  refine ⟨?_, ?_, ?_⟩
  · simp only [Block.separate, hp]
  · simp only [Block.align, hp]
  · simp only [Block.cohesion, hp]

theorem steering_single_zero {a : Block} (hv : a.rgbVel = 0) :
    a.separate [some a] = 0 ∧ a.align [some a] = 0 ∧
    a.cohesion [some a] = 0 := by
  have hp : peers [some a] = [a] := by simp [peers]
  refine ⟨?_, ?_, ?_⟩
  · simp only [Block.separate, hp, List.map_cons, List.map_nil,
      Vec3.sub_self_vec, Vec3.normalize_zero, List.sum_cons, List.sum_nil,
      add_zero, List.length_cons, List.length_nil]
    rw [if_pos (by norm_num)]
    rw [Vec3.vdiv_zero_vec, Vec3.normalize_zero, Vec3.smul_zero_vec, hv,
      Vec3.sub_self_vec, Vec3.limit_zero]
  · simp only [Block.align, hp, List.map_cons, List.map_nil, hv,
      List.sum_cons, List.sum_nil, add_zero, List.length_cons,
      List.length_nil]
    rw [if_pos (by norm_num)]
    rw [Vec3.vdiv_zero_vec, Vec3.normalize_zero, Vec3.smul_zero_vec,
      Vec3.sub_self_vec, Vec3.limit_zero]
  · simp only [Block.cohesion, hp, List.map_cons, List.map_nil,
      List.sum_cons, List.sum_nil, add_zero, List.length_cons,
      List.length_nil]
    rw [if_pos (by norm_num)]
    rw [show ((1 : ℕ) : ℝ) = 1 by norm_num, Vec3.vdiv_one]
    rw [Block.seek_self, hv, neg_zero_vec, Vec3.limit_zero]

theorem flock_single {a : Block} (g : Block.Gains) (hv : a.rgbVel = 0) :
    a.flock [some a] g = a := by
  obtain ⟨h1, h2, h3⟩ := steering_single_zero hv
  simp only [Block.flock, h1, h2, h3, Vec3.smul_zero_vec, Block.applyForce]
  apply Block.ext5 <;> simp

theorem update_rest {a : Block} (hv : a.rgbVel = 0) (hacc : a.rgbAcc = 0)
    (hc : a.rgb.inCube) : a.update = a := by
  have hlim : (a.rgbVel + a.rgbAcc).limit a.maxspeed = 0 := by
    rw [hv, hacc, add_zero, Vec3.limit_zero]
  have hX :
      ({ a with rgbVel := (a.rgbVel + a.rgbAcc).limit a.maxspeed, rgb := a.rgb + (a.rgbVel + a.rgbAcc).limit a.maxspeed } : Block) = a := by
    apply Block.ext5
    · show a.rgb + (a.rgbVel + a.rgbAcc).limit a.maxspeed = a.rgb
      rw [hlim, add_zero]
    · show (a.rgbVel + a.rgbAcc).limit a.maxspeed = a.rgbVel
      rw [hlim, hv]
    · rfl
    · rfl
    · rfl
  apply Block.ext5
  · rw [Block.update_rgb, hX, Block.edges_eq_self hc]
  · rw [Block.update_rgbVel, hX, Block.edges_eq_self hc]
  · rw [Block.update_rgbAcc, hacc]
  · rw [Block.update_maxspeed]
  · rw [Block.update_maxforce]

/-- C8: a single-agent flock with zero velocity, a cleared accumulator and an
in-range color is a fixed point — every frame's `flock` call applies zero net
steering force, and any number of full steps leaves the agent's color and
velocity unchanged. -/
theorem C8_single_agent (g : Block.Gains) (a : Block) (n : ℕ)
    (hv : a.rgbVel = 0) (hacc : a.rgbAcc = 0) (hc : a.rgb.inCube) :
    a.flock [some a] g = a ∧ (flockStep g)^[n] [some a] = [some a] := by
  have hf : a.flock [some a] g = a := flock_single g hv
  have hone : stepAgent g [some a] a = a := by
    rw [stepAgent, hf]
    exact update_rest hv hacc hc
  have hstep : flockStep g [some a] = [some a] := by
    simp [flockStep, hone]
  refine ⟨hf, ?_⟩
  induction n with
  | zero => rfl
  | succ n ih => rw [Function.iterate_succ_apply, hstep, ih]

/-- Witness for C8 at the concrete resting agent, three steps. -/
theorem C8_single_agent_witness :
    (blockW.rgbVel = 0 ∧ blockW.rgbAcc = 0 ∧ blockW.rgb.inCube) ∧
    blockW.flock [some blockW] gainsW = blockW ∧
    (flockStep gainsW)^[3] [some blockW] = [some blockW] := by
  have h1 : blockW.rgbVel = 0 := rfl
  have h2 : blockW.rgbAcc = 0 := rfl
  have h3 : blockW.rgb.inCube := by
    refine ⟨⟨?_, ?_⟩, ⟨?_, ?_⟩, ?_, ?_⟩ <;> norm_num [blockW]
  exact ⟨⟨h1, h2, h3⟩,
    (C8_single_agent gainsW blockW 3 h1 h2 h3).1,
    (C8_single_agent gainsW blockW 3 h1 h2 h3).2⟩

end
